import Mathlib

/-!
Verification development for the StarRocks backend fragment: the size-tiered
compaction policy of a versioned rowset store, and the hash-join build
pipeline operator.

The repository sample contains the policy's scenario test suite
(`src/be/test/storage/size_tiered_compaction_policy_test.cpp`) but not the
policy implementation itself (`storage/size_tiered_compaction_policy.cpp`).
The selector below is therefore modelled from the specification (data model
of versions, rowset metas, tiers, runs and tasks; the selection order of
forced base, size-tier level picking and delete pull-down; the gap and
delete ordering rules), with the test suite in `src/` as the authority for
every concrete behaviour it asserts: where the specification prose and a
test assertion disagree (the max-run cap, the first pick of the
base-and-backtrace scenario, descending-tier detection at tier boundaries),
the model follows the tests, and the corresponding discrepancy is recorded
as a corrected claim.

The hash-join build operator embedding is read directly from
`src/be/src/exec/pipeline/hashjoin/hash_join_build_operator.cpp`.
-/

namespace SizeTiered

/-- Modelled from the spec: a rowset meta record.  `storage/rowset` metadata
is not part of the sample; the spec's §3 "Rowset Meta" lists `version`
(as a closed interval `[startV, endV]`), `data_disk_size`, `num_segments`,
`creation_time` and an optional delete predicate (a pure tombstone rowset
with zero rows).  Row counts are omitted: no claim consults them. -/
structure RowsetMeta where
  startV : Nat
  endV : Nat
  dataDiskSize : Nat
  numSegments : Nat
  isDeletePredicate : Bool
  creationTime : Nat
deriving Repr, DecidableEq

/-- Modelled from the spec: the recognized configuration options of §6 that
the selector consults (`size_tiered_level_multiple`, the tier floor size,
`size_tiered_level_num`, the min/max cumulative and min base singleton-delta
thresholds, and `base_compaction_interval_seconds_since_last_operation`). -/
structure Config where
  levelMultiple : Nat
  minLevelSize : Nat
  levelNum : Nat
  minCumulativeDeltas : Nat
  maxCumulativeDeltas : Nat
  minBaseDeltas : Nat
  baseIntervalSeconds : Nat
deriving Repr, DecidableEq

/-- The size used for tiering and level decisions: a tombstone has zero data
size but still occupies a slot, so sizes are clamped to at least one byte. -/
def rsSize (r : RowsetMeta) : Nat := max r.dataDiskSize 1

/-- The ceiling of the geometric tier ladder: `size0 * M ^ Lmax`. -/
def maxLevelSize (cfg : Config) : Nat := cfg.minLevelSize * cfg.levelMultiple ^ cfg.levelNum

/-- Number of complete ladder steps of factor `m` from `s0` that fit under
`sz`, with fuel bounding the ladder height. -/
def tierSteps : Nat → Nat → Nat → Nat → Nat
  | 0, _, _, _ => 0
  | fuel + 1, s0, m, sz => if sz < s0 * m then 0 else tierSteps fuel (s0 * m) m sz + 1

/-- Modelled from the spec: the tier classifier of §3/§4.1,
`L = min(Lmax, floor(log_M(max(size, size0) / size0)) + 2)`; a rowset below
the floor size is tier 2. -/
def tierOf (cfg : Config) (sz : Nat) : Nat :=
  2 + tierSteps cfg.levelNum cfg.minLevelSize cfg.levelMultiple (max sz cfg.minLevelSize)

/-- Last element of a rowset list (self-contained to keep proofs local). -/
def lastR : List RowsetMeta → Option RowsetMeta
  | [] => none
  | [a] => some a
  | _ :: b :: t => lastR (b :: t)

/-- A list of rowsets is gap-free: every consecutive pair satisfies
`next.startV = prev.endV + 1`. -/
def chainedB : List RowsetMeta → Bool
  | [] => true
  | [_] => true
  | a :: b :: t => (b.startV == a.endV + 1) && chainedB (b :: t)

/-- State of the left-to-right level scan: the open level being grown, the
level size that opened it, the levels already closed (in catalog order), and
whether a tombstone was met that no base-anchored level could absorb. -/
structure LevelState where
  cur : List RowsetMeta
  curSize : Nat
  levels : List (List RowsetMeta)
  orphanDelete : Bool
deriving Repr, DecidableEq

def initLevelState : LevelState := ⟨[], 0, [], false⟩

/-- Close the open level, recording it as a candidate when non-empty. -/
def closeCur (st : LevelState) : LevelState :=
  { cur := []
    curSize := 0
    levels := if st.cur.isEmpty then st.levels else st.levels ++ [st.cur]
    orphanDelete := st.orphanDelete }

/-- Modelled from the spec (gap policy of §4.3): a run never crosses a
version gap, so a rowset that does not extend the open level's version span
closes it first. -/
def gapAdjust (st : LevelState) (r : RowsetMeta) : LevelState :=
  match lastR st.cur with
  | none => st
  | some p => if r.startV == p.endV + 1 then st else closeCur st

/-- Modelled from the spec: the body of one scan step, on a state already
gap-normalised.  A tombstone joins the open level only when that level is
anchored at version 0 (base compaction can apply the predicate to everything
below it); otherwise the open level is closed and the tombstone is recorded
as an orphan, per the delete ordering rules of §4.2.  A data rowset opens a
fresh level when it is more than `level_multiple` times smaller than the
size that opened the current level (the size-tiered ladder observed in
`test_write_multi_descending_order_level_size`), else it joins the level. -/
def stepAfterGap (cfg : Config) (st : LevelState) (r : RowsetMeta) : LevelState :=
  if r.isDeletePredicate then
    match st.cur.head? with
    | none => { st with orphanDelete := true }
    | some h =>
      if h.startV == 0 then { st with cur := st.cur ++ [r] }
      else { closeCur st with orphanDelete := true }
  else
    match st.cur.head? with
    | none => { st with cur := [r], curSize := min (rsSize r) (maxLevelSize cfg) }
    | some _ =>
      if cfg.levelMultiple * rsSize r < st.curSize then
        { closeCur st with cur := [r], curSize := min (rsSize r) (maxLevelSize cfg) }
      else { st with cur := st.cur ++ [r] }

/-- One step of the left-to-right level scan of §4.3: gap normalisation
followed by delete handling and the size-tier decision. -/
def stepRowset (cfg : Config) (st0 : LevelState) (r : RowsetMeta) : LevelState :=
  stepAfterGap cfg (gapAdjust st0 r) r

/-- Scan the whole catalog into size-tiered levels. -/
def scanLevels (cfg : Config) (c : List RowsetMeta) : LevelState :=
  closeCur (c.foldl (stepRowset cfg) initLevelState)

/-- Total segment count of a level; tombstones carry zero segments. -/
def lvlSegs (lvl : List RowsetMeta) : Nat :=
  (lvl.map RowsetMeta.numSegments).foldl Nat.add 0

/-- Modelled from the spec: the minimum number of segments a level must hold
to be worth compacting, `max(2, min(min_cumulative_deltas, M))`. -/
def minSegs (cfg : Config) : Nat :=
  max 2 (min cfg.minCumulativeDeltas cfg.levelMultiple)

/-- The level size that opened a candidate level (its first rowset's clamped
size, capped by the ladder ceiling). -/
def levelKeySize (cfg : Config) (lvl : List RowsetMeta) : Nat :=
  match lvl.head? with
  | some r => min (rsSize r) (maxLevelSize cfg)
  | none => 0

/-- Start version of a level. -/
def levelStart (lvl : List RowsetMeta) : Nat :=
  match lvl.head? with
  | some r => r.startV
  | none => 0

/-- Modelled from the spec: the level priority of §4.3 — smaller level sizes
first (cheapest merges, mirroring the level bonus of the score), ties broken
toward the larger start version (the newer run), as observed in
`test_missed_version_after_cumulative_point`. -/
def betterLevel (cfg : Config) (a b : List RowsetMeta) : Bool :=
  decide (levelKeySize cfg b < levelKeySize cfg a) ||
    (levelKeySize cfg b == levelKeySize cfg a && decide (levelStart a < levelStart b))

/-- Fold choosing the best qualifying level. -/
def pickBestAux (cfg : Config) (acc : Option (List RowsetMeta)) :
    List (List RowsetMeta) → Option (List RowsetMeta)
  | [] => acc
  | lvl :: rest =>
    if minSegs cfg ≤ lvlSegs lvl then
      match acc with
      | none => pickBestAux cfg (some lvl) rest
      | some a => pickBestAux cfg (some (if betterLevel cfg a lvl then lvl else a)) rest
    else pickBestAux cfg acc rest

/-- Best qualifying level of a scanned catalog, if any. -/
def pickBest (cfg : Config) (levels : List (List RowsetMeta)) : Option (List RowsetMeta) :=
  pickBestAux cfg none levels

/-- Longest gap-free run at the head of the catalog. -/
def contigFrom : RowsetMeta → List RowsetMeta → List RowsetMeta
  | r, [] => [r]
  | r, s :: t => if s.startV == r.endV + 1 then r :: contigFrom s t else [r]

/-- The whole contiguous base region: the maximal gap-free run of rowsets
starting at the catalog's first rowset. -/
def contigFront : List RowsetMeta → List RowsetMeta
  | [] => []
  | r :: t => contigFrom r t

/-- Whether the catalog's oldest rowset holds version 0. -/
def startsAtZero (c : List RowsetMeta) : Bool :=
  match c.head? with
  | some r => r.startV == 0
  | none => false

/-- Creation time of the catalog's oldest rowset. -/
def oldestCreation (c : List RowsetMeta) : Nat :=
  match c.head? with
  | some r => r.creationTime
  | none => 0

/-- Modelled from the spec: the forced base trigger of §4.3 item 1 — the
oldest non-compacted version's age exceeds
`base_compaction_interval_seconds_since_last_operation` and the catalog is
gap-free from version 0 with at least two rowsets in the base region. -/
def ageBaseGuard (cfg : Config) (now : Nat) (c : List RowsetMeta) : Bool :=
  startsAtZero c && decide (cfg.baseIntervalSeconds < now - oldestCreation c) &&
    decide (2 ≤ (contigFront c).length)

/-- Modelled from the spec: the delete pull-down (backtrace) trigger — an
orphan tombstone can only be resolved by a base merge, which requires the
base region to reach it: the catalog starts at version 0 and the contiguous
base region contains a tombstone. -/
def deleteBaseGuard (c : List RowsetMeta) : Bool :=
  startsAtZero c && (contigFront c).any RowsetMeta.isDeletePredicate &&
    decide (2 ≤ (contigFront c).length)

inductive CompactionKind where
  | cumulative
  | base
  | backtrace
deriving Repr, DecidableEq

/-- A selected compaction task: its kind and its ordered input run. -/
structure CompactionTask where
  kind : CompactionKind
  inputs : List RowsetMeta
deriving Repr, DecidableEq

/-- Output version span of a task, `[inputs.front.s, inputs.back.e]`. -/
def outputVersion (t : CompactionTask) : Nat × Nat :=
  ((t.inputs.head?.map RowsetMeta.startV).getD 0,
   ((lastR t.inputs).map RowsetMeta.endV).getD 0)

/-- Modelled from the spec: the candidate selector of §4.3 (the source file
`storage/size_tiered_compaction_policy.cpp` is not in the sample).  Order:
the empty and single-rowset catalogs are never compactable; then the
age-forced base compaction; then the best size-tiered level (a cumulative
task); then the delete pull-down over the base region (a backtrace task);
otherwise no task.  Where the spec prose and the test suite disagree, the
tests govern: no `max_cumulative_deltas` cap is applied
(`test_max_compaction` merges six singletons in one task), and level
formation compares sizes against the level-opening size rather than equality
of tiers (`test_write_multi_descending_order_level_size`). -/
def select (cfg : Config) (now : Nat) (c : List RowsetMeta) : Option CompactionTask :=
  if c.length < 2 then none
  else if ageBaseGuard cfg now c then some ⟨CompactionKind.base, contigFront c⟩
  else
    match pickBest cfg (scanLevels cfg c).levels with
    | some lvl => some ⟨CompactionKind.cumulative, lvl⟩
    | none =>
      if (scanLevels cfg c).orphanDelete && deleteBaseGuard c then
        some ⟨CompactionKind.backtrace, contigFront c⟩
      else none

/-- Modelled from the spec: the task builder's replacement rowset of §4.4 —
one rowset spanning the run's output version, sized by its inputs. -/
def mergedRowset (now : Nat) (inputs : List RowsetMeta) : RowsetMeta :=
  { startV := (inputs.head?.map RowsetMeta.startV).getD 0
    endV := ((lastR inputs).map RowsetMeta.endV).getD 0
    dataDiskSize := (inputs.map RowsetMeta.dataDiskSize).foldl Nat.add 0
    numSegments := 1
    isDeletePredicate := false
    creationTime := now }

/-- Modelled from the spec: the replacement plan of §4.4 — the catalog
atomically removes the run and inserts the single merged rowset. -/
def applyTask (now : Nat) (c : List RowsetMeta) (t : CompactionTask) : List RowsetMeta :=
  let out := mergedRowset now t.inputs
  c.filter (fun r => decide (r.startV < out.startV)) ++
    out :: c.filter (fun r => decide (out.endV < r.startV))

/-- One compaction tick that succeeds: select, and apply on success; the
catalog is untouched when nothing is selected. -/
def compactOnce (cfg : Config) (now : Nat) (c : List RowsetMeta) : List RowsetMeta :=
  match select cfg now c with
  | none => c
  | some t => applyTask now c t

/-- Modelled from the spec: the lifecycle contract of §4.5/§7 — a tick whose
task execution fails (`taskSucceeds = false`) discards the replacement plan
and leaves the catalog untouched, as does a tick that selects nothing. -/
def compactAttempt (cfg : Config) (now : Nat) (taskSucceeds : Bool)
    (c : List RowsetMeta) : List RowsetMeta :=
  match select cfg now c with
  | none => c
  | some t => if taskSucceeds then applyTask now c t else c

/-! Concrete catalogs of the scenario tests.  Disk sizes are abstracted to a
scaled ladder that preserves the tier relations the tests exercise: the test
fixture writes `24576 * (M+1)^(level-2)` rows per rowset with `M = 5`, so a
tier-`k` write is six times a tier-`(k-1)` write; the model uses a tier
floor of 100 bytes and write sizes 100, 600 and 3600 for tiers 2, 3 and 4.
The configuration mirrors `SetUp`: `min_cumulative = 2`, `max_cumulative =
5`, `min_base = 10`, with the defaults `M = 5` and a one-day forced-base
interval. -/

def testConfig : Config :=
  { levelMultiple := 5
    minLevelSize := 100
    levelNum := 7
    minCumulativeDeltas := 2
    maxCumulativeDeltas := 5
    minBaseDeltas := 10
    baseIntervalSeconds := 86400 }

/-- A single-version data rowset, one segment, created at time 0. -/
def dataRs (v sz : Nat) : RowsetMeta := ⟨v, v, sz, 1, false, 0⟩

/-- A single-version tombstone rowset: zero rows, zero size, no segments. -/
def delRs (v : Nat) : RowsetMeta := ⟨v, v, 0, 0, true, 0⟩

/-- `test_max_compaction`: six gap-free tier-2 singletons. -/
def catSix : List RowsetMeta :=
  [dataRs 0 100, dataRs 1 100, dataRs 2 100, dataRs 3 100, dataRs 4 100, dataRs 5 100]

/-- `test_base_and_backtrace_compaction`: tiers 3, 3, 2 and a tombstone. -/
def catBacktrace : List RowsetMeta :=
  [dataRs 0 600, dataRs 1 600, dataRs 2 100, delRs 3]

/-- `test_missed_first_version`: two tier-2 singletons split by a gap. -/
def catGap : List RowsetMeta := [dataRs 0 100, dataRs 2 100]

/-- `test_two_delete_missed_version`, before version 1 arrives. -/
def catTwoDelMissed : List RowsetMeta :=
  [dataRs 0 100, delRs 2, delRs 3, dataRs 4 100]

/-- `test_two_delete_missed_version`, after version 1 is written. -/
def catTwoDelFilled : List RowsetMeta :=
  [dataRs 0 100, dataRs 1 100, delRs 2, delRs 3, dataRs 4 100]

/-- `test_write_descending_order_level_size` / `test_force_base_compaction`:
strictly descending tiers 4, 3, 2. -/
def catDescending : List RowsetMeta :=
  [dataRs 0 3600, dataRs 1 600, dataRs 2 100]

/-- `test_write_multi_descending_order_level_size`: tiers 4, 3, 3, 2, 2. -/
def catMultiDescending : List RowsetMeta :=
  [dataRs 0 3600, dataRs 1 600, dataRs 2 600, dataRs 3 100, dataRs 4 100]

/-- Two rowsets at a tier boundary: 500 bytes is tier 3 and 499 bytes is
tier 2, yet the sizes differ by far less than the level multiple. -/
def catTierEdge : List RowsetMeta := [dataRs 0 500, dataRs 1 499]

/-- `test_force_base_compaction` lowers the forced-base interval to one
second before its second tick. -/
def forceConfig : Config := { testConfig with baseIntervalSeconds := 1 }

/-- Every consecutive pair of the scan's open level connects without a
version gap to the incoming rowset (what gap normalisation establishes). -/
def ConnectsTo (l : List RowsetMeta) (r : RowsetMeta) : Prop :=
  ∀ p, lastR l = some p → r.startV = p.endV + 1

/-- The head of a level is never a tombstone. -/
def HeadOk (l : List RowsetMeta) : Prop :=
  ∀ x, l.head? = some x → x.isDeletePredicate = false

/-- A well-formed level: gap-free and not headed by a tombstone. -/
def GoodLevel (l : List RowsetMeta) : Prop := chainedB l = true ∧ HeadOk l

/-- Scan-state invariant: every closed level and the open level are
well-formed. -/
def InvSt (st : LevelState) : Prop :=
  (∀ lvl ∈ st.levels, GoodLevel lvl) ∧ GoodLevel st.cur

/-- No rowset of the catalog is a tombstone. -/
def noDeletes (c : List RowsetMeta) : Bool :=
  c.all (fun r => !r.isDeletePredicate)

/-- Every rowset is a singleton delta of at most one segment. -/
def singleSegs (c : List RowsetMeta) : Bool :=
  c.all (fun r => decide (r.numSegments ≤ 1))

/-- Consecutive sizes drop by more than the level multiple (the size
counterpart of a strictly descending tier sequence). -/
def strictDropB (cfg : Config) : List RowsetMeta → Bool
  | [] => true
  | [_] => true
  | a :: b :: t =>
    decide (cfg.levelMultiple * rsSize b < min (rsSize a) (maxLevelSize cfg)) &&
      strictDropB cfg (b :: t)

/-- Scan-state bound used for descending catalogs: all closed levels hold at
most one segment, the open level is empty or a single one-segment rowset
whose clamped size is the recorded level size, and no orphan tombstone was
seen. -/
def SmallSt (cfg : Config) (st : LevelState) : Prop :=
  (∀ lvl ∈ st.levels, lvlSegs lvl ≤ 1) ∧
  (st.cur = [] ∨
    ∃ x, st.cur = [x] ∧ x.numSegments ≤ 1 ∧
      st.curSize = min (rsSize x) (maxLevelSize cfg)) ∧
  st.orphanDelete = false

end SizeTiered

namespace HashJoin

/-- Result statuses of the runtime `Status` type, restricted to the codes
the sampled operator code produces. -/
inductive Status where
  | statusOk
  | notSupported (msg : String)
  | internalError (msg : String)
deriving Repr, DecidableEq

/-- `StatusOr<T>`: a value or an error status. -/
def StatusOr (α : Type) : Type := Except Status α

/-- The runtime state handle passed to operator methods.  `pull_chunk`
ignores it entirely; one representative field suffices. -/
structure RuntimeState where
  queryMemLimit : Nat
deriving Repr, DecidableEq

/-- A columnar chunk, abstracted to its row count (no claim consults the
columns). -/
structure Chunk where
  numRows : Nat
deriving Repr, DecidableEq

/-- The literal message of `HashJoinBuildOperator::pull_chunk`. -/
def pullChunkMsg : String := "pull_chunk not supported in HashJoinBuildOperator"

/-- Shallow embedding of `HashJoinBuildOperator::pull_chunk`
(`hash_join_build_operator.cpp:58`): the build operator is a sink, so the
method unconditionally fails — the source first trips `CHECK(false)` (a
fatal assertion in every build mode) and its fall-through value is
`Status::NotSupported(msg)`; the embedding models the returned status. -/
def pull_chunk (_ : RuntimeState) : StatusOr Chunk :=
  Except.error (Status.notSupported pullChunkMsg)

end HashJoin

namespace SizeTiered

theorem chainedB_snoc (r : RowsetMeta) :
    ∀ l : List RowsetMeta, chainedB l = true → ConnectsTo l r →
      chainedB (l ++ [r]) = true
  | [], _, _ => rfl
  | [a], _, hx => by
    have h := hx a rfl
    simp [chainedB, h]
  | a :: b :: t, hc, hx => by
    have h1 : (b.startV == a.endV + 1) = true ∧ chainedB (b :: t) = true := by
      simpa [chainedB, Bool.and_eq_true] using hc
    have h2 : ConnectsTo (b :: t) r := by
      intro p hp
      exact hx p (by simpa [lastR] using hp)
    have ih := chainedB_snoc r (b :: t) h1.2 h2
    simpa [chainedB, h1.1] using ih

theorem goodLevel_nil : GoodLevel [] := by
  refine ⟨rfl, ?_⟩
  intro x hx
  simp at hx

theorem goodLevel_single {r : RowsetMeta} (hr : r.isDeletePredicate = false) :
    GoodLevel [r] := by
  refine ⟨rfl, ?_⟩
  intro x hx
  have hrx : r = x := by simpa using hx
  exact hrx ▸ hr

theorem goodLevel_snoc {l : List RowsetMeta} {r : RowsetMeta}
    (h : GoodLevel l) (hne : l ≠ []) (hcon : ConnectsTo l r) :
    GoodLevel (l ++ [r]) := by
  refine ⟨chainedB_snoc r l h.1 hcon, ?_⟩
  intro x hx
  cases l with
  | nil => exact absurd rfl hne
  | cons a t =>
    have hax : a = x := by simpa using hx
    exact hax ▸ h.2 a rfl

theorem invSt_closeCur {st : LevelState} (h : InvSt st) : InvSt (closeCur st) := by
  obtain ⟨hl, hc⟩ := h
  refine ⟨?_, goodLevel_nil⟩
  intro lvl hm
  by_cases he : st.cur.isEmpty
  · simp [closeCur, he] at hm
    exact hl lvl hm
  · simp [closeCur, he] at hm
    rcases hm with hm | hm
    · exact hl lvl hm
    · exact hm ▸ hc

theorem invSt_gapAdjust {st : LevelState} {r : RowsetMeta} (h : InvSt st) :
    InvSt (gapAdjust st r) := by
  cases hl : lastR st.cur with
  | none => simpa [gapAdjust, hl] using h
  | some p =>
    by_cases hb : (r.startV == p.endV + 1) = true
    · simpa [gapAdjust, hl, hb] using h
    · simpa [gapAdjust, hl, hb] using invSt_closeCur h

theorem gapAdjust_connects (st : LevelState) (r : RowsetMeta) :
    ConnectsTo (gapAdjust st r).cur r := by
  intro p hp
  cases hl : lastR st.cur with
  | none =>
    simp only [gapAdjust, hl] at hp
    cases hp
  | some q =>
    by_cases hb : (r.startV == q.endV + 1) = true
    · simp only [gapAdjust, hl, if_pos hb] at hp
      have hpq : q = p := by simpa using hp
      subst hpq
      simpa using hb
    · simp only [gapAdjust, hl, if_neg hb] at hp
      simp [closeCur, lastR] at hp

theorem invSt_stepAfterGap (cfg : Config) {st : LevelState} {r : RowsetMeta}
    (h : InvSt st) (hcon : ConnectsTo st.cur r) :
    InvSt (stepAfterGap cfg st r) := by
  obtain ⟨hl, hc⟩ := h
  unfold stepAfterGap
  by_cases hd : r.isDeletePredicate = true
  · rw [if_pos hd]
    cases hcur : st.cur with
    | nil =>
      simp only [hcur, List.head?_nil]
      exact ⟨hl, by rw [hcur] at hc; exact hc⟩
    | cons x xs =>
      simp only [hcur, List.head?_cons]
      by_cases hx : (x.startV == 0) = true
      · rw [if_pos hx]
        refine ⟨hl, ?_⟩
        show GoodLevel ((x :: xs) ++ [r])
        exact goodLevel_snoc (hcur ▸ hc) (by simp) (hcur ▸ hcon)
      · rw [if_neg hx]
        exact invSt_closeCur ⟨hl, hc⟩
  · rw [if_neg hd]
    have hd2 : r.isDeletePredicate = false := by
      cases hb : r.isDeletePredicate
      · rfl
      · exact absurd hb hd
    cases hcur : st.cur with
    | nil =>
      simp only [hcur, List.head?_nil]
      exact ⟨hl, goodLevel_single hd2⟩
    | cons x xs =>
      simp only [hcur, List.head?_cons]
      by_cases hdrop : cfg.levelMultiple * rsSize r < st.curSize
      · rw [if_pos hdrop]
        have hcl := invSt_closeCur ⟨hl, hc⟩
        exact ⟨hcl.1, goodLevel_single hd2⟩
      · rw [if_neg hdrop]
        refine ⟨hl, ?_⟩
        show GoodLevel ((x :: xs) ++ [r])
        exact goodLevel_snoc (hcur ▸ hc) (by simp) (hcur ▸ hcon)

theorem invSt_stepRowset (cfg : Config) {st : LevelState} (r : RowsetMeta)
    (h : InvSt st) : InvSt (stepRowset cfg st r) :=
  invSt_stepAfterGap cfg (invSt_gapAdjust h) (gapAdjust_connects st r)

theorem invSt_fold (cfg : Config) :
    ∀ (c : List RowsetMeta) (st : LevelState), InvSt st →
      InvSt (c.foldl (stepRowset cfg) st)
  | [], _, h => h
  | r :: t, st, h => invSt_fold cfg t (stepRowset cfg st r) (invSt_stepRowset cfg r h)

theorem scanLevels_good (cfg : Config) (c : List RowsetMeta) :
    ∀ lvl ∈ (scanLevels cfg c).levels, GoodLevel lvl := by
  have h0 : InvSt initLevelState := ⟨by intro l hl; simp [initLevelState] at hl, goodLevel_nil⟩
  exact (invSt_closeCur (invSt_fold cfg c initLevelState h0)).1

theorem pickBestAux_mem (cfg : Config) :
    ∀ (ls : List (List RowsetMeta)) (acc : Option (List RowsetMeta))
      (l : List RowsetMeta),
      pickBestAux cfg acc ls = some l → acc = some l ∨ l ∈ ls
  | [], _, _, h => Or.inl h
  | lvl :: rest, acc, l, h => by
    unfold pickBestAux at h
    by_cases hq : minSegs cfg ≤ lvlSegs lvl
    · rw [if_pos hq] at h
      cases acc with
      | none =>
        rcases pickBestAux_mem cfg rest (some lvl) l h with h2 | h2
        · have : lvl = l := by simpa using h2
          exact Or.inr (this ▸ List.mem_cons_self lvl rest)
        · exact Or.inr (List.mem_cons_of_mem _ h2)
      | some a =>
        rcases pickBestAux_mem cfg rest
            (some (if betterLevel cfg a lvl then lvl else a)) l h with h2 | h2
        · by_cases hb : betterLevel cfg a lvl = true
          · rw [if_pos hb] at h2
            have : lvl = l := by simpa using h2
            exact Or.inr (this ▸ List.mem_cons_self lvl rest)
          · rw [if_neg hb] at h2
            exact Or.inl h2
        · exact Or.inr (List.mem_cons_of_mem _ h2)
    · rw [if_neg hq] at h
      rcases pickBestAux_mem cfg rest acc l h with h2 | h2
      · exact Or.inl h2
      · exact Or.inr (List.mem_cons_of_mem _ h2)

theorem pickBest_mem {cfg : Config} {ls : List (List RowsetMeta)}
    {l : List RowsetMeta} (h : pickBest cfg ls = some l) : l ∈ ls := by
  rcases pickBestAux_mem cfg ls none l h with h2 | h2
  · cases h2
  · exact h2

theorem contigFrom_head (r : RowsetMeta) (t : List RowsetMeta) :
    (contigFrom r t).head? = some r := by
  cases t with
  | nil => rfl
  | cons s t2 =>
    unfold contigFrom
    by_cases hb : (s.startV == r.endV + 1) = true
    · rw [if_pos hb]; rfl
    · rw [if_neg hb]; rfl

theorem contigFrom_chained : ∀ (r : RowsetMeta) (t : List RowsetMeta),
    chainedB (contigFrom r t) = true
  | _, [] => rfl
  | r, s :: t2 => by
    unfold contigFrom
    by_cases hb : (s.startV == r.endV + 1) = true
    · rw [if_pos hb]
      have ih := contigFrom_chained s t2
      cases hcf : contigFrom s t2 with
      | nil =>
        have hh := contigFrom_head s t2
        rw [hcf] at hh
        cases hh
      | cons y ys =>
        have hh := contigFrom_head s t2
        rw [hcf] at hh
        have hys : y = s := by simpa using hh
        subst hys
        rw [hcf] at ih
        simpa [chainedB, hb] using ih
    · rw [if_neg hb]; rfl

theorem contigFront_chained (c : List RowsetMeta) :
    chainedB (contigFront c) = true := by
  cases c with
  | nil => rfl
  | cons r t => exact contigFrom_chained r t

theorem contigFront_headZero {c : List RowsetMeta} (h : startsAtZero c = true) :
    ∀ x, (contigFront c).head? = some x → x.startV = 0 := by
  cases c with
  | nil => simp [startsAtZero] at h
  | cons r t =>
    intro x hx
    rw [contigFront, contigFrom_head] at hx
    have hrx : r = x := by simpa using hx
    subst hrx
    simpa [startsAtZero] using h

theorem stepRowset_nilCur (cfg : Config) {st : LevelState} {r : RowsetMeta}
    (hcur : st.cur = []) (hr : r.isDeletePredicate = false) :
    stepRowset cfg st r =
      ⟨[r], min (rsSize r) (maxLevelSize cfg), st.levels, st.orphanDelete⟩ := by
  unfold stepRowset gapAdjust stepAfterGap
  rw [hcur]
  simp [lastR, hr, hcur]

theorem stepRowset_singleGap (cfg : Config) {st : LevelState} {x r : RowsetMeta}
    (hcur : st.cur = [x]) (hr : r.isDeletePredicate = false)
    (hg : (r.startV == x.endV + 1) = false) :
    stepRowset cfg st r =
      ⟨[r], min (rsSize r) (maxLevelSize cfg), st.levels ++ [[x]], st.orphanDelete⟩ := by
  unfold stepRowset gapAdjust stepAfterGap closeCur
  rw [hcur]
  simp [lastR, hr, hg, hcur]

theorem stepRowset_singleDrop (cfg : Config) {st : LevelState} {x r : RowsetMeta}
    (hcur : st.cur = [x]) (hr : r.isDeletePredicate = false)
    (hg : (r.startV == x.endV + 1) = true)
    (hdrop : cfg.levelMultiple * rsSize r < st.curSize) :
    stepRowset cfg st r =
      ⟨[r], min (rsSize r) (maxLevelSize cfg), st.levels ++ [[x]], st.orphanDelete⟩ := by
  unfold stepRowset gapAdjust stepAfterGap closeCur
  rw [hcur]
  simp [lastR, hr, hg, hdrop, hcur]

theorem smallFold (cfg : Config) :
    ∀ (c : List RowsetMeta) (st : LevelState),
      SmallSt cfg st →
      noDeletes c = true → singleSegs c = true → strictDropB cfg c = true →
      (∀ x r, st.cur = [x] → c.head? = some r →
        cfg.levelMultiple * rsSize r < st.curSize) →
      SmallSt cfg (c.foldl (stepRowset cfg) st)
  | [], _, hs, _, _, _, _ => hs
  | r :: rest, st, hs, hnd, hss, hdr, hbr => by
    obtain ⟨hlv, hcur, horph⟩ := hs
    have hnd2 : r.isDeletePredicate = false ∧ noDeletes rest = true := by
      simpa [noDeletes, List.all_cons] using hnd
    have hss2 : r.numSegments ≤ 1 ∧ singleSegs rest = true := by
      simpa [singleSegs, List.all_cons] using hss
    have hdr2 : strictDropB cfg rest = true := by
      cases rest with
      | nil => rfl
      | cons b t =>
        have h2 : cfg.levelMultiple * rsSize b < min (rsSize r) (maxLevelSize cfg) ∧
            strictDropB cfg (b :: t) = true := by
          simpa [strictDropB, Bool.and_eq_true] using hdr
        exact h2.2
    have hnext : ∀ b t, rest = b :: t →
        cfg.levelMultiple * rsSize b < min (rsSize r) (maxLevelSize cfg) := by
      intro b t hbt
      subst hbt
      have h2 : cfg.levelMultiple * rsSize b < min (rsSize r) (maxLevelSize cfg) ∧
          strictDropB cfg (b :: t) = true := by
        simpa [strictDropB, Bool.and_eq_true] using hdr
      exact h2.1
    have hres : ∃ lv2, stepRowset cfg st r =
        (⟨[r], min (rsSize r) (maxLevelSize cfg), lv2, st.orphanDelete⟩ : LevelState) ∧
        ∀ l ∈ lv2, lvlSegs l ≤ 1 := by
      rcases hcur with hnil | ⟨x, hx, hxseg, _⟩
      · exact ⟨st.levels, stepRowset_nilCur cfg hnil hnd2.1, hlv⟩
      · have hsm : ∀ l ∈ st.levels ++ [[x]], lvlSegs l ≤ 1 := by
          intro l hl
          rcases List.mem_append.mp hl with h | h
          · exact hlv l h
          · have hlx : l = [x] := by simpa using h
            subst hlx
            simpa [lvlSegs] using hxseg
        by_cases hg : (r.startV == x.endV + 1) = true
        · have hdrop : cfg.levelMultiple * rsSize r < st.curSize := hbr x r hx rfl
          exact ⟨st.levels ++ [[x]], stepRowset_singleDrop cfg hx hnd2.1 hg hdrop, hsm⟩
        · exact ⟨st.levels ++ [[x]],
            stepRowset_singleGap cfg hx hnd2.1 (by simpa using hg), hsm⟩
    obtain ⟨lv2, heq, hlv2⟩ := hres
    have hfold : (r :: rest).foldl (stepRowset cfg) st =
        rest.foldl (stepRowset cfg) (stepRowset cfg st r) := rfl
    rw [hfold, heq]
    apply smallFold cfg rest
    · exact ⟨hlv2, Or.inr ⟨r, rfl, hss2.1, rfl⟩, horph⟩
    · exact hnd2.2
    · exact hss2.2
    · exact hdr2
    · intro x2 r2 hx2 hh2
      cases rest with
      | nil => cases hh2
      | cons b t =>
        have hx2e : r = x2 := by simpa using hx2
        have hr2e : b = r2 := by simpa using hh2
        subst hx2e
        subst hr2e
        exact hnext b t rfl

theorem smallScan (cfg : Config) (c : List RowsetMeta)
    (hnd : noDeletes c = true) (hss : singleSegs c = true)
    (hdr : strictDropB cfg c = true) :
    (∀ lvl ∈ (scanLevels cfg c).levels, lvlSegs lvl ≤ 1) ∧
      (scanLevels cfg c).orphanDelete = false := by
  have h0 : SmallSt cfg initLevelState :=
    ⟨by intro l hl; simp [initLevelState] at hl, Or.inl rfl, rfl⟩
  have h1 := smallFold cfg c initLevelState h0 hnd hss hdr
    (by intro x r hx _; simp [initLevelState] at hx)
  obtain ⟨hlv, hcur, horph⟩ := h1
  constructor
  · intro lvl hm
    rcases hcur with hnil | ⟨x, hx, hxseg, _⟩
    · rw [scanLevels] at hm
      simp [closeCur, hnil] at hm
      exact hlv lvl hm
    · rw [scanLevels] at hm
      simp [closeCur, hx] at hm
      rcases hm with hm | hm
      · exact hlv lvl hm
      · subst hm
        simpa [lvlSegs] using hxseg
  · rw [scanLevels]
    simpa [closeCur] using horph

theorem two_le_minSegs (cfg : Config) : 2 ≤ minSegs cfg := Nat.le_max_left _ _

theorem pickBestAux_none (cfg : Config) :
    ∀ ls : List (List RowsetMeta), (∀ lvl ∈ ls, lvlSegs lvl < minSegs cfg) →
      pickBestAux cfg none ls = none
  | [], _ => rfl
  | lvl :: rest, h => by
    unfold pickBestAux
    rw [if_neg (Nat.not_le.mpr (h lvl (List.mem_cons_self _ _)))]
    exact pickBestAux_none cfg rest fun l hl => h l (List.mem_cons_of_mem _ hl)

theorem descending_no_select {cfg : Config} {now : Nat} {c : List RowsetMeta}
    (hnd : noDeletes c = true) (hss : singleSegs c = true)
    (hdr : strictDropB cfg c = true) (hage : ageBaseGuard cfg now c = false) :
    select cfg now c = none := by
  by_cases hlen : c.length < 2
  · simp [select, hlen]
  · have hsm := smallScan cfg c hnd hss hdr
    have hpick : pickBest cfg (scanLevels cfg c).levels = none := by
      unfold pickBest
      apply pickBestAux_none
      intro lvl hm
      exact Nat.lt_of_lt_of_le (Nat.lt_succ_of_le (hsm.1 lvl hm)) (two_le_minSegs cfg)
    simp [select, hlen, hage, hpick, hsm.2]

theorem select_cases {cfg : Config} {now : Nat} {c : List RowsetMeta}
    {t : CompactionTask} (h : select cfg now c = some t) :
    (t.inputs = contigFront c ∧ startsAtZero c = true) ∨
      t.inputs ∈ (scanLevels cfg c).levels := by
  unfold select at h
  by_cases hlen : c.length < 2
  · rw [if_pos hlen] at h
    cases h
  · rw [if_neg hlen] at h
    by_cases hage : ageBaseGuard cfg now c = true
    · rw [if_pos hage] at h
      have ht := Option.some.inj h
      left
      constructor
      · rw [← ht]
      · have h2 := hage
        simp only [ageBaseGuard, Bool.and_eq_true] at h2
        exact h2.1.1
    · rw [if_neg hage] at h
      cases hp : pickBest cfg (scanLevels cfg c).levels with
      | some lvl =>
        simp only [hp] at h
        have ht := Option.some.inj h
        right
        rw [← ht]
        exact pickBest_mem hp
      | none =>
        simp only [hp] at h
        by_cases ho : ((scanLevels cfg c).orphanDelete && deleteBaseGuard c) = true
        · rw [if_pos ho] at h
          have ht := Option.some.inj h
          left
          constructor
          · rw [← ht]
          · have h2 := ho
            simp only [deleteBaseGuard, Bool.and_eq_true] at h2
            exact h2.2.1.1
        · rw [if_neg ho] at h
          cases h

theorem chained_of_select {cfg : Config} {now : Nat} {c : List RowsetMeta}
    {t : CompactionTask} (h : select cfg now c = some t) :
    chainedB t.inputs = true := by
  rcases select_cases h with ⟨hi, _⟩ | hi
  · rw [hi]
    exact contigFront_chained c
  · exact (scanLevels_good cfg c t.inputs hi).1

theorem head_of_select {cfg : Config} {now : Nat} {c : List RowsetMeta}
    {t : CompactionTask} {x : RowsetMeta} (h : select cfg now c = some t)
    (hx : t.inputs.head? = some x) :
    x.isDeletePredicate = false ∨ x.startV = 0 := by
  rcases select_cases h with ⟨hi, hz⟩ | hi
  · right
    exact contigFront_headZero hz x (hi ▸ hx)
  · left
    exact (scanLevels_good cfg c t.inputs hi).2 x hx

/-- C1 counterexample: with `max_cumulative_compaction_num_singleton_deltas`
set to 5, the catalog of six gap-free same-tier singleton rowsets
`[0,0]..[5,5]` yields a single cumulative task over all six inputs — its run
length 6 exceeds the configured cap, refuting the claim that a cumulative
task contains at most that many input rowsets (the behaviour
`test_max_compaction` asserts: one compact leaves exactly `{[0,5]}`). -/
theorem cumulative_cap_counterexample :
    select testConfig 0 catSix = some ⟨CompactionKind.cumulative, catSix⟩ ∧
    testConfig.maxCumulativeDeltas = 5 ∧
    (⟨CompactionKind.cumulative, catSix⟩ : CompactionTask).inputs.length = 6 ∧
    ¬ ((⟨CompactionKind.cumulative, catSix⟩ : CompactionTask).inputs.length ≤
        testConfig.maxCumulativeDeltas) := by
  refine ⟨by decide, rfl, rfl, by decide⟩

/-- C1 (amended): the size-tiered selector applies no
`max_cumulative_compaction_num_singleton_deltas` cap: the six-singleton
catalog yields one cumulative task whose inputs are all six rowsets, and
applying it leaves the single rowset `[0,5]`, exactly as
`test_max_compaction` asserts. -/
theorem saturated_cumulative_uncapped :
    select testConfig 0 catSix = some ⟨CompactionKind.cumulative, catSix⟩ ∧
    compactOnce testConfig 0 catSix =
      [⟨0, 5, 600, 1, false, 0⟩] := by
  refine ⟨by decide, by decide⟩

/-- C2 counterexample: on the catalog `{[0,0] tier3, [1,1] tier3, [2,2]
tier2, [3,3] delete}`, the first select returns a task whose output version
is `[0,1]`, not the claimed `[2,3]`, and the catalog after applying it is
not the claimed `{[0,0],[1,1],[2,3]}` (the behaviour
`test_base_and_backtrace_compaction` asserts: the first compact leaves
`{[0,1],[2,2],[3,3]}`). -/
theorem backtrace_first_pick_counterexample :
    (select testConfig 0 catBacktrace).map outputVersion = some (0, 1) ∧
    ((0, 1) : Nat × Nat) ≠ (2, 3) ∧
    compactOnce testConfig 0 catBacktrace ≠
      [dataRs 0 600, dataRs 1 600, ⟨2, 3, 100, 1, false, 0⟩] := by
  refine ⟨by decide, by decide, by decide⟩

/-- C2 (amended): on `{[0,0] tier3, [1,1] tier3, [2,2] tier2, [3,3]
delete}`, the first select returns a cumulative task over the tier-3 pair
`[0,1]`, leaving `{[0,1],[2,2],[3,3]}`; the second select then pulls the
orphan delete down with a backtrace task over the whole base region, leaving
`{[0,3]}` — matching both compacts of `test_base_and_backtrace_compaction`. -/
theorem backtrace_scenario_trace :
    select testConfig 0 catBacktrace =
      some ⟨CompactionKind.cumulative, [dataRs 0 600, dataRs 1 600]⟩ ∧
    compactOnce testConfig 0 catBacktrace =
      [⟨0, 1, 1200, 1, false, 0⟩, dataRs 2 100, delRs 3] ∧
    select testConfig 0 [⟨0, 1, 1200, 1, false, 0⟩, dataRs 2 100, delRs 3] =
      some ⟨CompactionKind.backtrace,
        [⟨0, 1, 1200, 1, false, 0⟩, dataRs 2 100, delRs 3]⟩ ∧
    compactOnce testConfig 0 [⟨0, 1, 1200, 1, false, 0⟩, dataRs 2 100, delRs 3] =
      [⟨0, 3, 1300, 1, false, 0⟩] := by
  refine ⟨by decide, by decide, by decide, by decide⟩

/-- C3: for every catalog and configuration, a selected run never crosses a
version gap — every pair of consecutive input rowsets satisfies `next.startV
= prev.endV + 1` — and the catalog `{[0,0],[2,2]}` of two same-tier rowsets
split by a missing version yields no task (`test_missed_first_version`). -/
theorem select_run_gap_free :
    (∀ (cfg : Config) (now : Nat) (c : List RowsetMeta) (t : CompactionTask),
      select cfg now c = some t → chainedB t.inputs = true) ∧
    select testConfig 0 catGap = none := by
  refine ⟨?_, by decide⟩
  intro cfg now c t h
  exact chained_of_select h

/-- C3 witness: the saturated six-singleton catalog selects a task, and the
gap-freedom theorem applied at it confirms its inputs are chained. -/
theorem select_run_gap_free_witness :
    chainedB (⟨CompactionKind.cumulative, catSix⟩ : CompactionTask).inputs = true :=
  select_run_gap_free.1 testConfig 0 catSix
    ⟨CompactionKind.cumulative, catSix⟩ (by decide)

/-- C4: a selected run never starts at a tombstone whose predicate still
awaits missing earlier versions — in general the first input of any selected
task is either a data rowset or sits at version 0 (where no earlier version
can be missing); concretely, the catalog `{[0,0] data, gap at 1, [2,2]
delete, [3,3] delete, [4,4] data}` yields no task, and once version 1 is
written the whole catalog is merged into `[0,4]`
(`test_two_delete_missed_version`). -/
theorem delete_ordering_guard :
    (∀ (cfg : Config) (now : Nat) (c : List RowsetMeta) (t : CompactionTask)
      (x : RowsetMeta), select cfg now c = some t → t.inputs.head? = some x →
        x.isDeletePredicate = false ∨ x.startV = 0) ∧
    select testConfig 0 catTwoDelMissed = none ∧
    select testConfig 0 catTwoDelFilled =
      some ⟨CompactionKind.cumulative, catTwoDelFilled⟩ ∧
    compactOnce testConfig 0 catTwoDelFilled =
      [⟨0, 4, 300, 1, false, 0⟩] := by
  refine ⟨?_, by decide, by decide, by decide⟩
  intro cfg now c t x h hx
  exact head_of_select h hx

/-- C4 witness: the delete-ordering theorem applied to the filled
two-delete catalog confirms its selected run starts at a data rowset. -/
theorem delete_ordering_guard_witness :
    (dataRs 0 100).isDeletePredicate = false ∨ (dataRs 0 100).startV = 0 :=
  delete_ordering_guard.1 testConfig 0 catTwoDelFilled
    ⟨CompactionKind.cumulative, catTwoDelFilled⟩ (dataRs 0 100)
    (by decide) (by decide)

/-- C5: whenever the forced-base guard holds — the oldest rowset's age
exceeds `base_compaction_interval_seconds_since_last_operation` and the
catalog is gap-free from version 0 — select emits a BASE task covering the
whole contiguous base region; concretely, the strictly descending catalog
`{[0,0] tier4, [1,1] tier3, [2,2] tier2}` yields no task before the
interval elapses and a BASE task over `[0,2]` after it, leaving `{[0,2]}`
(`test_force_base_compaction`). -/
theorem forced_base_compaction :
    (∀ (cfg : Config) (now : Nat) (c : List RowsetMeta), ¬ c.length < 2 →
      ageBaseGuard cfg now c = true →
        select cfg now c = some ⟨CompactionKind.base, contigFront c⟩) ∧
    select testConfig 0 catDescending = none ∧
    select forceConfig 2 catDescending =
      some ⟨CompactionKind.base, catDescending⟩ ∧
    compactOnce forceConfig 2 catDescending =
      [⟨0, 2, 4300, 1, false, 2⟩] := by
  refine ⟨?_, by decide, by decide, by decide⟩
  intro cfg now c hlen hage
  simp [select, hlen, hage]

/-- C5 witness: the forced-base theorem applied after the interval elapses
yields the BASE task over the whole base region. -/
theorem forced_base_compaction_witness :
    select forceConfig 2 catDescending =
      some ⟨CompactionKind.base, contigFront catDescending⟩ :=
  forced_base_compaction.1 forceConfig 2 catDescending (by decide) (by decide)

/-- C6 counterexample: tier sequences alone do not disable compaction — the
no-delete catalog `{[0,0] 500 bytes, [1,1] 499 bytes}` has strictly
descending tiers (tier 3 then tier 2), yet select returns a cumulative task
and the catalog changes, because the sizes differ by far less than the level
multiple; the claim's universal quantification over all descending-tier
catalogs therefore fails. -/
theorem descending_tier_counterexample :
    tierOf testConfig (dataRs 0 500).dataDiskSize = 3 ∧
    tierOf testConfig (dataRs 1 499).dataDiskSize = 2 ∧
    noDeletes catTierEdge = true ∧
    select testConfig 0 catTierEdge =
      some ⟨CompactionKind.cumulative, catTierEdge⟩ ∧
    compactOnce testConfig 0 catTierEdge ≠ catTierEdge := by
  refine ⟨by decide, by decide, by decide, by decide, by decide⟩

/-- C6 (amended): for every catalog of single-segment, non-delete rowsets
whose consecutive sizes drop by more than the level multiple (which makes
the tier sequence strictly descending, as in the witnessed 4, 3, 2 catalog),
and whose forced-base age has not elapsed, select emits no task and the
catalog stays unchanged; witnessed by the tier sequence 4, 3, 2 over
`[0,0],[1,1],[2,2]` (`test_write_descending_order_level_size`). -/
theorem descending_size_no_task :
    (∀ (cfg : Config) (now : Nat) (c : List RowsetMeta),
      noDeletes c = true → singleSegs c = true → strictDropB cfg c = true →
      ageBaseGuard cfg now c = false →
        select cfg now c = none ∧ compactOnce cfg now c = c) ∧
    select testConfig 0 catDescending = none ∧
    compactOnce testConfig 0 catDescending = catDescending := by
  refine ⟨?_, by decide, by decide⟩
  intro cfg now c hnd hss hdr hage
  have hsel := descending_no_select hnd hss hdr hage
  exact ⟨hsel, by simp [compactOnce, hsel]⟩

/-- C6 witness: the amended theorem applied to the witnessed descending
catalog confirms no task is emitted and the catalog is unchanged. -/
theorem descending_size_no_task_witness :
    select testConfig 0 catDescending = none ∧
    compactOnce testConfig 0 catDescending = catDescending :=
  descending_size_no_task.1 testConfig 0 catDescending
    (by decide) (by decide) (by decide) (by decide)

/-- C7: on the catalog with tiers (old to new) 4, 3, 3, 2, 2 over
`[0,0]..[4,4]` and no deletes, the first select returns a task over exactly
the trailing equal-tier pair, producing `[3,4]`, and repeated selects
converge the catalog to the single rowset `[0,4]` (the three compacts of
`test_write_multi_descending_order_level_size`). -/
theorem multi_descending_trace :
    select testConfig 0 catMultiDescending =
      some ⟨CompactionKind.cumulative, [dataRs 3 100, dataRs 4 100]⟩ ∧
    compactOnce testConfig 0 catMultiDescending =
      [dataRs 0 3600, dataRs 1 600, dataRs 2 600, ⟨3, 4, 200, 1, false, 0⟩] ∧
    compactOnce testConfig 0 (compactOnce testConfig 0 catMultiDescending) =
      [dataRs 0 3600, ⟨1, 4, 1400, 1, false, 0⟩] ∧
    compactOnce testConfig 0
        (compactOnce testConfig 0 (compactOnce testConfig 0 catMultiDescending)) =
      [⟨0, 4, 5000, 1, false, 0⟩] := by
  refine ⟨by decide, by decide, by decide, by decide⟩

/-- C8: for every configuration, tick time and catalog with fewer than two
rowsets, select returns no task and any compaction attempt leaves the
catalog unchanged. -/
theorem small_catalog_no_task (cfg : Config) (now : Nat) (ok : Bool)
    (c : List RowsetMeta) (h : c.length < 2) :
    select cfg now c = none ∧ compactAttempt cfg now ok c = c := by
  have hsel : select cfg now c = none := by simp [select, h]
  exact ⟨hsel, by simp [compactAttempt, hsel]⟩

/-- C8 witness: the small-catalog theorem applied to the empty catalog and
to the single-rowset catalog `{[0,0]}`. -/
theorem small_catalog_no_task_witness :
    (select testConfig 0 ([] : List RowsetMeta) = none ∧
      compactAttempt testConfig 0 true ([] : List RowsetMeta) = []) ∧
    (select testConfig 0 [dataRs 0 100] = none ∧
      compactAttempt testConfig 0 true [dataRs 0 100] = [dataRs 0 100]) :=
  ⟨small_catalog_no_task testConfig 0 true [] (by decide),
   small_catalog_no_task testConfig 0 true [dataRs 0 100] (by decide)⟩

/-- C9: a compaction attempt that does not succeed never touches the
catalog: when nothing is selected the tick returns the catalog unchanged,
and when task execution fails the replacement plan is discarded and the
catalog is exactly what it was before the attempt. -/
theorem failed_task_catalog_unchanged (cfg : Config) (now : Nat)
    (c : List RowsetMeta) :
    (select cfg now c = none → compactAttempt cfg now true c = c) ∧
    compactAttempt cfg now false c = c := by
  constructor
  · intro hsel
    simp [compactAttempt, hsel]
  · unfold compactAttempt
    cases select cfg now c <;> simp

/-- C9 witness: the unchanged-catalog theorem applied to a tick that selects
nothing (the gapped catalog) and to a failing task on the saturated
catalog. -/
theorem failed_task_catalog_unchanged_witness :
    compactAttempt testConfig 0 true catGap = catGap ∧
    compactAttempt testConfig 0 false catSix = catSix :=
  ⟨(failed_task_catalog_unchanged testConfig 0 catGap).1 (by decide),
   (failed_task_catalog_unchanged testConfig 0 catSix).2⟩

end SizeTiered

namespace HashJoin

/-- C10: for every runtime state, `HashJoinBuildOperator::pull_chunk` never
produces a chunk — the build operator is sink-only, and every call fails
with the NotSupported status (the source first trips `CHECK(false)` with the
same message). -/
theorem pull_chunk_never_produces :
    ∀ state : RuntimeState,
      pull_chunk state = Except.error (Status.notSupported pullChunkMsg) ∧
      ∀ ch : Chunk, pull_chunk state ≠ Except.ok ch := by
  intro state
  refine ⟨rfl, ?_⟩
  intro ch h
  cases h

/-- C10 witness: the never-produces theorem applied at a concrete runtime
state. -/
theorem pull_chunk_never_produces_witness :
    pull_chunk ⟨0⟩ = Except.error (Status.notSupported pullChunkMsg) :=
  (pull_chunk_never_produces ⟨0⟩).1

end HashJoin
